import Mathlib

/-!
Verification of the Wazuh sequence-rule engine core
(`sequence_rule_engine/engine/`): value model, dotted-path extractor,
where-expression parser, rule compiler, correlation state machine and the
sequence engine, together with theorems settling the specification claims.

Machine integers/datetimes are modelled as `Int` (seconds); Python floats
are modelled as `Rat`; fallible code returns `Except`.
-/

namespace SeqRuleEngine

/-- Characters that are textual braces (kept out of string literals). -/
def lbrace : Char := Char.ofNat 123

/-- Closing textual brace character. -/
def rbrace : Char := Char.ofNat 125

/-- Double-quote character. -/
def dquote : Char := Char.ofNat 34

/-- Single-quote character. -/
def squote : Char := Char.ofNat 39

/-- Model of a dynamic Python value as stored in event records and rule
literals: `None`, `bool`, `int`, `float` (modelled as `Rat`), `str`,
`list`, `dict` (insertion-ordered association list, as in Python). -/
inductive Value where
  | null
  | bool (b : Bool)
  | int (n : Int)
  | float (q : Rat)
  | str (s : String)
  | list (xs : List Value)
  | dict (kvs : List (String × Value))

/-- First binding for a key in a dict's association list (Python dict keys
are unique, so first = only). -/
def pyLookup (k : String) : List (String × Value) → Option Value
  | [] => none
  | (k2, v) :: rest => if k2 = k then some v else pyLookup k rest

mutual

/-- Python `==` on values. Booleans compare equal to the numbers 0/1 and
ints to equal floats, as in Python. Dict comparison is modelled as ordered
pairwise equality (Python dicts built by the engine are compared only
against scalar literals, where both models agree: the result is `false`). -/
def pyEq : Value → Value → Bool
  | .null, .null => true
  | .bool a, .bool b => a == b
  | .bool a, .int n => (if a then (1 : Int) else 0) == n
  | .bool a, .float q => ((if a then (1 : Int) else 0) : Rat) == q
  | .int m, .bool b => m == (if b then (1 : Int) else 0)
  | .int m, .int n => m == n
  | .int m, .float q => ((m : Rat)) == q
  | .float p, .bool b => p == ((if b then (1 : Int) else 0) : Rat)
  | .float p, .int n => p == ((n : Rat))
  | .float p, .float q => p == q
  | .str a, .str b => a == b
  | .list xs, .list ys => pyEqList xs ys
  | .dict xs, .dict ys => pyEqDict xs ys
  | _, _ => false

/-- Elementwise Python equality of two lists. -/
def pyEqList : List Value → List Value → Bool
  | [], [] => true
  | x :: xs, y :: ys => pyEq x y && pyEqList xs ys
  | _, _ => false

/-- Ordered pairwise Python equality of two dicts. -/
def pyEqDict : List (String × Value) → List (String × Value) → Bool
  | [], [] => true
  | (k1, v1) :: xs, (k2, v2) :: ys => k1 == k2 && pyEq v1 v2 && pyEqDict xs ys
  | _, _ => false

end

/-- Decimal rendering of a `Rat` modelling Python `str` of a float for the
finite-decimal fractions produced by the literal parser. -/
def ratRepr (q : Rat) : String :=
  if q.den = 1 then toString q.num ++ ".0" else toString q

mutual

/-- Python `repr` of a value (strings quoted); used inside containers. -/
def pyRepr : Value → String
  | .null => "None"
  | .bool true => "True"
  | .bool false => "False"
  | .int n => toString n
  | .float q => ratRepr q
  | .str s => String.mk (squote :: (s.toList ++ [squote]))
  | .list xs => "[" ++ pyReprList xs ++ "]"
  | .dict kvs => String.mk (lbrace :: (pyReprDict kvs).toList) ++ String.mk [rbrace]

/-- Comma-joined reprs of list elements. -/
def pyReprList : List Value → String
  | [] => ""
  | [x] => pyRepr x
  | x :: xs => pyRepr x ++ ", " ++ pyReprList xs

/-- Comma-joined reprs of dict entries. -/
def pyReprDict : List (String × Value) → String
  | [] => ""
  | [(k, v)] => String.mk (squote :: k.toList ++ [squote]) ++ ": " ++ pyRepr v
  | (k, v) :: kvs =>
      String.mk (squote :: k.toList ++ [squote]) ++ ": " ++ pyRepr v ++ ", " ++ pyReprDict kvs

end

/-- Python `str` of a value: identity on strings, `repr` otherwise. -/
def pyStr : Value → String
  | .str s => s
  | v => pyRepr v

/-- Python `str.strip()`: drop leading and trailing whitespace. -/
def pyStrip (s : String) : String :=
  String.mk (((s.toList.dropWhile Char.isWhitespace).reverse.dropWhile Char.isWhitespace).reverse)

/-- Python `str.split(sep)` for a single-character separator: splits on
every occurrence, keeping empty parts. -/
def splitOnCh (sep : Char) : List Char → List (List Char)
  | [] => [[]]
  | c :: rest =>
    match splitOnCh sep rest with
    | [] => [[c]]
    | part :: parts => if c = sep then [] :: part :: parts else (c :: part) :: parts

/-- Python `path.split(".")`. -/
def splitDots (s : String) : List String :=
  (splitOnCh '.' s.toList).map String.mk

/-- Python `str.lower()` (ASCII case mapping). -/
def lowerStr (s : String) : String :=
  String.mk (s.toList.map Char.toLower)

/-- Python `sep.join(parts)`. -/
def joinSep (sep : String) : List String → String
  | [] => ""
  | [x] => x
  | x :: xs => x ++ sep ++ joinSep sep xs

/-- Loop body of `DottedPathExtractor.extract` / `Event.get`: descend into
dict nodes following the split path, returning `default` as soon as a
segment is absent or the current node is not a dict. -/
def extractGo (default : Value) : List String → Value → Value
  | [], v => v
  | k :: ks, v =>
    match v with
    | .dict kvs =>
      match pyLookup k kvs with
      | some v2 => extractGo default ks v2
      | none => default
    | _ => default

/-- Model of `DottedPathExtractor.extract(event, path, default)`: empty path or a
non-dict event returns `default`; otherwise descend by the dot-split path. -/
def extract (event : Value) (path : String) (default : Value := Value.null) : Value :=
  if path = "" then default
  else
    match event with
    | .dict _ => extractGo default (splitDots path) event
    | _ => default

/-! ### String helpers modelling the Python string operations used by the
where-expression parser. -/

/-- Whether `pat` is a prefix of `l`. -/
def isPrefixCh : List Char → List Char → Bool
  | [], _ => true
  | _ :: _, [] => false
  | p :: ps, c :: cs => p == c && isPrefixCh ps cs

/-- Split `l` at the first occurrence of `pat` (Python `s.split(pat, 1)`
when it yields two parts); `none` when `pat` does not occur. -/
def splitOnceCh (pat : List Char) : List Char → Option (List Char × List Char)
  | [] => if isPrefixCh pat [] then some ([], []) else none
  | c :: rest =>
    if isPrefixCh pat (c :: rest) then some ([], (c :: rest).drop pat.length)
    else (splitOnceCh pat rest).map (fun p => (c :: p.1, p.2))

/-- Python `pat in s` substring test. -/
def containsSub (s pat : String) : Bool :=
  (splitOnceCh pat.toList s.toList).isSome

/-- Split a string at the first occurrence of `op`. -/
def splitOnce (s op : String) : Option (String × String) :=
  (splitOnceCh op.toList s.toList).map (fun p => (String.mk p.1, String.mk p.2))

/-- Drop leading whitespace. -/
def skipWs : List Char → List Char
  | [] => []
  | c :: rest => if c.isWhitespace then skipWs rest else c :: rest

/-- Match `\s*in\s*[` at the head of `l`, returning the tail after the
opening bracket. -/
def matchInTail (l : List Char) : Option (List Char) :=
  match skipWs l with
  | 'i' :: 'n' :: rest =>
    match skipWs rest with
    | '[' :: tail => some tail
    | _ => none
  | _ => none

/-- Whether `re.search(r"\s+in\s*\[", s)` succeeds: some position starts one
whitespace character followed by `\s*in\s*[`. -/
def hasInDispatch : List Char → Bool
  | [] => false
  | c :: rest => (c.isWhitespace && (matchInTail rest).isSome) || hasInDispatch rest

/-- Split at the first occurrence of `t` at index ≥ 1, mirroring a
non-greedy `(.+?)` group (at least one character) before the delimiter. -/
def splitAtGe1 (t : Char) : List Char → Option (List Char × List Char)
  | [] => none
  | c :: rest => (splitOnceCh [t] rest).map (fun p => (c :: p.1, p.2))

/-- Anchored `re.match(r"(.+?)\s+in\s*\[(.+?)\]", s)`: find the least split
point where group 1 (non-empty) is followed by `\s+in\s*[`, then take group
2 as everything up to the first `]` at index ≥ 1; backtrack the split point
when no bracketed group can be closed. -/
def findInSplit (acc : List Char) : List Char → Option (List Char × List Char)
  | [] => none
  | c :: rest =>
    if c.isWhitespace && acc ≠ [] then
      match matchInTail rest with
      | some tail =>
        match splitAtGe1 ']' tail with
        | some (g2, _) => some (acc.reverse, g2)
        | none => findInSplit (c :: acc) rest
      | none => findInSplit (c :: acc) rest
    else findInSplit (c :: acc) rest

/-- Digits of a non-empty all-digit character list, as a natural number. -/
def digitsToNat? : List Char → Option Nat
  | [] => none
  | l => go l 0
where
  go : List Char → Nat → Option Nat
    | [], acc => some acc
    | c :: rest, acc =>
      if c.isDigit then go rest (acc * 10 + (c.toNat - 48)) else none

/-- Python `int(s)` on an already-stripped string: optional sign and a
non-empty run of digits (digit-group underscores are not modelled). -/
def pyInt? (s : String) : Option Int :=
  match s.toList with
  | '+' :: rest => (digitsToNat? rest).map Int.ofNat
  | '-' :: rest => (digitsToNat? rest).map (fun n => -(n : Int))
  | l => (digitsToNat? l).map Int.ofNat

/-- Python `float(s)` for plain decimal forms `[+-]?digits*.digits*` with at
least one digit (exponent and `inf`/`nan` forms are not modelled; the engine
only reaches this when `s` contains a dot). -/
def pyFloat? (s : String) : Option Rat :=
  match s.toList with
  | '+' :: rest => core rest
  | '-' :: rest => (core rest).map Neg.neg
  | l => core l
where
  core (l : List Char) : Option Rat :=
    match splitOnceCh ['.'] l with
    | none => none
    | some (ip, fp) =>
      if (ip ++ fp).all Char.isDigit && (ip ++ fp) ≠ [] then
        some ((digitsVal ip : Rat) + (digitsVal fp : Rat) / ((10 : Rat) ^ fp.length))
      else none
  digitsVal (l : List Char) : Nat :=
    l.foldl (fun acc c => acc * 10 + (c.toNat - 48)) 0

/-- Strip a matching pair of quote characters `q` (Python
`s.startswith(q) and s.endswith(q)` then `s[1:-1]`; a single quote
character satisfies both tests and yields the empty string). -/
def stripQuotes? (q : Char) : List Char → Option String
  | [] => none
  | [c] => if c = q then some "" else none
  | c :: rest =>
    if c = q && rest.getLast? = some q then some (String.mk rest.dropLast) else none

/-- Model of `WhereExpressionParser._parse_value`: quoted string, boolean, null,
number (float when the text contains a dot), falling back to the raw text. -/
def parseValue (s0 : String) : Value :=
  let s := pyStrip s0
  match stripQuotes? dquote s.toList with
  | some inner => .str inner
  | none =>
    match stripQuotes? squote s.toList with
    | some inner => .str inner
    | none =>
      let low := lowerStr s
      if low = "true" then .bool true
      else if low = "false" then .bool false
      else if low = "null" || low = "none" then .null
      else if containsSub s "." then
        match pyFloat? s with
        | some q => .float q
        | none => .str s
      else
        match pyInt? s with
        | some n => .int n
        | none => .str s

/-! ### Where-expression parser (`engine/where_parser.py`) -/

/-- Compiled predicate of a sequence step. The source compiles each branch
to a closure; the closure bodies are represented by this AST with `evalPred`
as their shared semantics. -/
inductive Pred where
  | eqP (path : String) (lit : Value)
  | neP (path : String) (lit : Value)
  | inP (path : String) (lits : List Value)
  | containsP (path : String) (needle : String)
  | regexP (path : String) (pattern : String)

/-- Drop the literal prefix `pat` from `l`, or fail. -/
def dropPrefixCh : List Char → List Char → Option (List Char)
  | [], l => some l
  | _ :: _, [] => none
  | p :: ps, c :: cs => if p = c then dropPrefixCh ps cs else none

/-- Anchored `re.match(r"name\s*\(\s*(.+?)\s*,\s*(.+?)\s*\)", s)` for the
two-argument function forms: after the function name and opening paren, the
first group runs to the first comma at index ≥ 1 and the second to the first
closing paren at index ≥ 1 (both groups are stripped afterwards, absorbing
the `\s*` borders); trailing text after the closing paren is ignored. -/
def parseTwoArgs (fname : List Char) (l : List Char) : Option (String × String) :=
  match dropPrefixCh fname l with
  | none => none
  | some rest =>
    match skipWs rest with
    | '(' :: body =>
      match splitAtGe1 ',' body with
      | some (g1, rest2) =>
        match splitAtGe1 ')' rest2 with
        | some (g2, _) => some (pyStrip (String.mk g1), pyStrip (String.mk g2))
        | none => none
      | none => none
    | _ => none

/-- Literal list inside `in [...]`: split on commas, strip each item, skip
empty items, parse the rest as literals. -/
def parseListValues (s : String) : List Value :=
  ((splitOnCh ',' s.toList).map String.mk).foldr
    (fun part acc =>
      let p := pyStrip part
      if p = "" then acc else parseValue p :: acc) []

/-- Model of `WhereExpressionParser._parse_comparison` for `==` / `!=`. -/
def parseComparison (expression : String) (op : String) (isEq : Bool) : Except String Pred :=
  match splitOnce expression op with
  | none => .error ("Invalid " ++ op ++ " expression: " ++ expression)
  | some (a, b) =>
    let fieldPath := pyStrip a
    let valueStr := pyStrip b
    if valueStr = "" then .error ("Invalid " ++ op ++ " expression: " ++ expression)
    else if isEq then .ok (.eqP fieldPath (parseValue valueStr))
    else .ok (.neP fieldPath (parseValue valueStr))

/-- Model of `WhereExpressionParser._parse_in`. -/
def parseIn (expression : String) : Except String Pred :=
  match findInSplit [] (pyStrip expression).toList with
  | none => .error ("Invalid 'in' expression: " ++ expression)
  | some (g1, g2) => .ok (.inP (pyStrip (String.mk g1)) (parseListValues (pyStrip (String.mk g2))))

/-- Model of `WhereExpressionParser._parse_contains`. -/
def parseContains (expression : String) : Except String Pred :=
  match parseTwoArgs "contains".toList (pyStrip expression).toList with
  | none => .error ("Invalid contains expression: " ++ expression)
  | some (fieldPath, arg2) =>
    match parseValue arg2 with
    | .str needle => .ok (.containsP fieldPath needle)
    | _ => .error "Contains search value must be a string"

/-- Model of `re.compile` pattern validity. The rule set exercised here uses
only literal patterns, for which every pattern is a valid regex; invalid
metacharacter patterns are outside this model and are treated as valid. -/
def reCompileOk (_pattern : String) : Bool :=
  true

/-- Model of `re.compile(pattern).search(s)` for the literal-pattern
fragment: substring search. -/
def reSearch (pattern : String) (s : String) : Bool :=
  containsSub s pattern

/-- Model of `WhereExpressionParser._parse_regex`. -/
def parseRegex (expression : String) : Except String Pred :=
  match parseTwoArgs "regex".toList (pyStrip expression).toList with
  | none => .error ("Invalid regex expression: " ++ expression)
  | some (fieldPath, arg2) =>
    match parseValue arg2 with
    | .str pattern =>
      if reCompileOk pattern then .ok (.regexP fieldPath pattern)
      else .error ("Invalid regex pattern: " ++ pattern)
    | _ => .error "Regex pattern must be a string"

/-- Model of `WhereExpressionParser.parse`: strip, reject empty, dispatch by lexical
check in source order (`contains(` substring, `regex(` substring,
whitespace-then-`in[`, `!=`, `==`). -/
def parse (expression0 : String) : Except String Pred :=
  let expression := pyStrip expression0
  if expression = "" then .error "Empty where expression"
  else if containsSub expression "contains(" then parseContains expression
  else if containsSub expression "regex(" then parseRegex expression
  else if hasInDispatch expression.toList then parseIn expression
  else if containsSub expression "!=" then parseComparison expression "!=" false
  else if containsSub expression "==" then parseComparison expression "==" true
  else .error ("Unsupported expression syntax: " ++ expression)

/-- Semantics of the compiled predicate closures. Absent paths extract the
default `None` (`Value.null`); `==`/`!=` use Python equality against the
literal; `in` tests membership by the same equality; `contains`/`regex`
return false on `None` and otherwise search `str(actual)`. -/
def evalPred (p : Pred) (event : Value) : Bool :=
  match p with
  | .eqP path lit => pyEq (extract event path) lit
  | .neP path lit => !pyEq (extract event path) lit
  | .inP path lits => lits.any (fun v => pyEq (extract event path) v)
  | .containsP path needle =>
    match extract event path with
    | .null => false
    | v => containsSub (pyStr v) needle
  | .regexP path pattern =>
    match extract event path with
    | .null => false
    | v => reSearch pattern (pyStr v)

/-! ### Data model (`engine/models.py`) and rule compiler
(`engine/compiler.py`) -/

/-- Model of `Event`: field map, timestamp (modelled as seconds, `Int`) and event id
(the runs verified here always supply an explicit id, so the digest-derived
default id is not modelled). -/
structure Event where
  fields : Value
  timestamp : Int
  event_id : String

/-- Model of `Event.get`: dotted-path field access over the event's field map with
default `None`. -/
def Event.get (e : Event) (path : String) (default : Value := Value.null) : Value :=
  if path = "" then default
  else extractGo default (splitDots path) e.fields

/-- Model of `Match`: a completed sequence for one correlation key. -/
structure Match where
  rule_id : String
  rule_name : String
  matched_event_ids : List String
  correlation_key : String
  timestamp : Int
deriving DecidableEq, Repr

/-- A step's compiled where-callable may in principle fail at runtime; the
source types it as a plain callable, modelled as `Except`-valued. -/
def tryEval (f : Value → Except String Bool) (v : Value) : Bool :=
  match f v with
  | .ok b => b
  | .error _ => false

/-- Model of `CompiledStep`: alias, raw where text, compiled predicate, ordinal. -/
structure CompiledStep where
  as_alias : String
  where_expr : String
  pred : Pred
  step_index : Nat

/-- The step's where-callable: total evaluation of the compiled predicate,
wrapped in the `Except` type of a possibly-failing Python callable. -/
def CompiledStep.where_func (st : CompiledStep) : Value → Except String Bool :=
  fun v => .ok (evalPred st.pred v)

/-- Model of `CompiledStep.matches`: evaluate the where-callable, trapping any
evaluation error as a non-match (`try/except` returning `False`). -/
def CompiledStep.matches (st : CompiledStep) (event : Value) : Bool :=
  tryEval st.where_func event

/-- Step dictionary as accepted by the compiler: `as` and `where` entries,
each possibly absent. -/
structure StepDict where
  asField : Option String
  whereField : Option String
deriving DecidableEq

/-- Rule dictionary as accepted by the compiler; every field may be absent
(the compiler substitutes defaults for all but `sequence`). -/
structure RuleDict where
  idF : Option String := none
  nameF : Option String := none
  byF : Option (List String) := none
  withinSecondsF : Option Int := none
  sequenceF : Option (List StepDict) := none
  outputF : Option Value := none

/-- Model of `CompiledRule`: metadata defaults applied by `CompiledRule.__init__`
(`id`/`name` default to the empty string, `by` to `[]`, `within_seconds` to
300, `output` to the empty dict) plus the compiled steps with their indices
assigned. -/
structure CompiledRule where
  rule_id : String
  rule_name : String
  by_fields : List String
  within_seconds : Int
  output : Value
  steps : List CompiledStep

/-- Model of `CompiledRule.get_step_count`. -/
def CompiledRule.get_step_count (r : CompiledRule) : Nat :=
  r.steps.length

/-- Model of `CompiledRule.get_by_fields`. -/
def CompiledRule.get_by_fields (r : CompiledRule) : List String :=
  r.by_fields

/-- Model of `CompiledRule.__init__` over an already-compiled step list. -/
def CompiledRule.ofRule (rule : RuleDict) (steps : List CompiledStep) : CompiledRule where
  rule_id := rule.idF.getD ""
  rule_name := rule.nameF.getD ""
  by_fields := rule.byF.getD []
  within_seconds := rule.withinSecondsF.getD 300
  output := rule.outputF.getD (.dict [])
  steps := steps.enum.map (fun p => { p.2 with step_index := p.1 })

/-- Compile one step of the sequence: `as` and `where` must be present and
the where expression must parse; validation stops at the first failure. -/
def compileStep (step : StepDict) : Except String CompiledStep :=
  match step.asField with
  | none => .error "Each step must have an 'as' field"
  | some a =>
    match step.whereField with
    | none => .error "Each step must have a 'where' field"
    | some w =>
      match parse w with
      | .error e => .error ("Invalid where expression '" ++ w ++ "': " ++ e)
      | .ok p => .ok { as_alias := a, where_expr := w, pred := p, step_index := 0 }

/-- Compile every step in order, propagating the first failure. -/
def compileSteps : List StepDict → Except String (List CompiledStep)
  | [] => .ok []
  | st :: rest =>
    match compileStep st with
    | .error e => .error e
    | .ok c =>
      match compileSteps rest with
      | .error e => .error e
      | .ok cs => .ok (c :: cs)

/-- Model of `RuleCompiler.compile_rule`: require a non-empty `sequence` list, compile
each step, then build the `CompiledRule` (no other field is validated). -/
def compile_rule (rule : RuleDict) : Except String CompiledRule :=
  match rule.sequenceF with
  | none => .error "Rule must have a 'sequence' field"
  | some seq =>
    if seq.isEmpty then .error "Rule sequence must be a non-empty list"
    else
      match compileSteps seq with
      | .error e => .error e
      | .ok steps => .ok (CompiledRule.ofRule rule steps)

/-- Whether an `Except` computation succeeded. -/
def exceptOk {ε α : Type} : Except ε α → Bool
  | .ok _ => true
  | .error _ => false

/-! ### Correlation state machine (`engine/state_machine.py`) -/

/-- Model of `CorrelationState`: per-key sequence progress. -/
structure CorrelationState where
  key : String
  current_step_idx : Nat
  matched_ids : List String
  timestamps : List Int
  first_ts : Option Int
  last_ts : Option Int
deriving DecidableEq, Repr

/-- Fresh state (`CorrelationState.__init__`). -/
def CorrelationState.init (k : String) : CorrelationState :=
  ⟨k, 0, [], [], none, none⟩

/-- Model of `CorrelationState.next_step`: append the event id and timestamp, set
`first_ts` on the first append, update `last_ts`, advance the index. (The
source's boolean return value is unused by the engine.) -/
def CorrelationState.next_step (s : CorrelationState) (event_id : String) (ts : Int) :
    CorrelationState :=
  { s with
    matched_ids := s.matched_ids ++ [event_id]
    timestamps := s.timestamps ++ [ts]
    first_ts := some (s.first_ts.getD ts)
    last_ts := some ts
    current_step_idx := s.current_step_idx + 1 }

/-- Model of `CorrelationState.reset`: back to initial conditions (key retained). -/
def CorrelationState.reset (s : CorrelationState) : CorrelationState :=
  { s with
    current_step_idx := 0
    matched_ids := []
    timestamps := []
    first_ts := none
    last_ts := none }

/-- Model of `CorrelationState.is_complete`. -/
def CorrelationState.is_complete (s : CorrelationState) (total_steps : Nat) : Bool :=
  total_steps ≤ s.current_step_idx

/-- Model of `CorrelationState.is_expired(window_seconds)`: false unless both
`first_ts` and `last_ts` are set; otherwise expired when
`last_ts − first_ts` is negative or exceeds the window. -/
def CorrelationState.is_expired (s : CorrelationState) (window_seconds : Int) : Bool :=
  match s.first_ts, s.last_ts with
  | some f, some l =>
    let elapsed := l - f
    elapsed < 0 || elapsed > window_seconds
  | _, _ => false

/-- Model of `CorrelationState.get_duration_seconds`. -/
def CorrelationState.get_duration_seconds (s : CorrelationState) : Int :=
  match s.first_ts, s.last_ts with
  | some f, some l => l - f
  | _, _ => 0

/-! ### Sequence engine (`engine/engine.py`)

The engine's `state_map` dict is modelled as an insertion-ordered
association list with unique keys, matching Python dict semantics. -/

/-- The engine's `state_map`. -/
abbrev StateMap := List (String × CorrelationState)

/-- Dict lookup (first binding). -/
def alookup (smap : StateMap) (k : String) : Option CorrelationState :=
  match smap with
  | [] => none
  | (k2, s) :: rest => if k2 = k then some s else alookup rest k

/-- Dict assignment `smap[k] = v`: update the existing binding in place,
else append. -/
def aset (smap : StateMap) (k : String) (v : CorrelationState) : StateMap :=
  match smap with
  | [] => [(k, v)]
  | (k2, s) :: rest => if k2 = k then (k2, v) :: rest else (k2, s) :: aset rest k v

/-- Model of `SequenceEngine._extract_correlation_key` inner loop: the string parts
of each `by` field's value, or `none` as soon as one extracts to `None`
(which covers both an absent field and an explicitly null one). -/
def collectKeyParts (event : Event) : List String → Option (List String)
  | [] => some []
  | fp :: rest =>
    match event.get fp with
    | .null => none
    | v => (collectKeyParts event rest).map (fun parts => pyStr v :: parts)

/-- Model of `SequenceEngine._extract_correlation_key`: `"default"` for an empty
`by` list, otherwise the `|`-join of the extracted parts, or `none` when
any required field is missing. -/
def extractCorrelationKey (event : Event) (by_fields : List String) : Option String :=
  if by_fields.isEmpty then some "default"
  else
    match collectKeyParts event by_fields with
    | none => none
    | some parts => if parts.isEmpty then none else some (joinSep "|" parts)

/-- A ghost-instrumented emitted match: the `Match` together with the
completing state's `timestamps` snapshot and the emitting rule's
`within_seconds`. Erasing the ghost components (`Prod.fst`) gives exactly
the source's emitted matches. -/
abbrev GMatch := Match × List Int × Int

/-- Lines 180–197 of `_process_event_for_rule`: the event matched the
current step, so advance the state; when that completes the sequence, emit
the match (with ghost data) and reset the state. All state mutations are
written back to the map, as the source mutates the state object in place. -/
def advanceAndEmit (rule : CompiledRule) (ev : Event) (key : String)
    (state : CorrelationState) (smap : StateMap) : List GMatch × StateMap :=
  let state := state.next_step ev.event_id ev.timestamp
  if state.is_complete rule.get_step_count then
    let m : Match :=
      { rule_id := rule.rule_id
        rule_name := rule.rule_name
        matched_event_ids := state.matched_ids
        correlation_key := key
        timestamp := ev.timestamp }
    ([(m, state.timestamps, rule.within_seconds)], aset smap key state.reset)
  else ([], aset smap key state)

/-- Model of `SequenceEngine._process_event_for_rule`: extract the correlation key
(skipping the event when none), get or create the state, reset a completed
or out-of-range state, test the current step, apply the window-exceeded
restart, then advance/emit. The `rule.steps[idx]!` indexing of the source
can only fall outside the list for a rule with no steps, which the compiler
rejects; that unreachable case is modelled as a no-op. -/
def processEventForRuleG (rule : CompiledRule) (ev : Event) (smap : StateMap) :
    List GMatch × StateMap :=
  match extractCorrelationKey ev rule.get_by_fields with
  | none => ([], smap)
  | some key =>
    let smap := if (alookup smap key).isNone then aset smap key (.init key) else smap
    let state := (alookup smap key).getD (.init key)
    let state := if state.is_complete rule.get_step_count then state.reset else state
    let idx := state.current_step_idx
    let p : CorrelationState × Nat :=
      if rule.get_step_count ≤ idx then (state.reset, 0) else (state, idx)
    let state := p.1
    let idx := p.2
    match rule.steps[idx]? with
    | none => ([], aset smap key state)
    | some step =>
      if step.matches ev.fields then
        match state.first_ts with
        | some ft =>
          if ev.timestamp - ft > rule.within_seconds then
            let state := state.reset
            match rule.steps[0]? with
            | none => ([], aset smap key state)
            | some step0 =>
              if step0.matches ev.fields then advanceAndEmit rule ev key state smap
              else ([], aset smap key state)
          else advanceAndEmit rule ev key state smap
        | none => advanceAndEmit rule ev key state smap
      else ([], aset smap key state)

/-- Minimum `within_seconds` over loaded rules with a non-empty `by` list
(`none` models `float("inf")`: no such rule). -/
def minTimeout (rules : List CompiledRule) : Option Int :=
  rules.foldl
    (fun acc r =>
      if r.get_by_fields.isEmpty then acc
      else
        match acc with
        | none => some r.within_seconds
        | some m => some (min m r.within_seconds)) none

/-- Whether `_cleanup_expired_states` treats an entry as expired: a finite
minimum timeout, a set `last_ts`, and idle time beyond that timeout. -/
def expiredEntry (mt : Option Int) (now : Int) (s : CorrelationState) : Bool :=
  match mt with
  | none => false
  | some m =>
    match s.last_ts with
    | some l => now - l > m
    | none => false

/-- Model of `SequenceEngine._cleanup_expired_states`: collect the expired keys and
delete them. With the dict's unique keys this is exactly a filter keeping
the non-expired entries, in order. -/
def cleanupExpiredStates (rules : List CompiledRule) (now : Int) (smap : StateMap) :
    StateMap :=
  smap.filter (fun kv => !expiredEntry (minTimeout rules) now kv.2)

/-- The `for rule in self.rules` loop of `process_event`: concatenated
per-rule matches in rule-load order, threading the state map. -/
def processRulesG (ev : Event) (smap : StateMap) :
    List CompiledRule → List GMatch × StateMap
  | [] => ([], smap)
  | r :: rs =>
    let p := processEventForRuleG r ev smap
    let q := processRulesG ev p.2 rs
    (p.1 ++ q.1, q.2)

/-- Model of `SequenceEngine.process_event` (ghost-instrumented): all rules in
order, then the expired-state sweep at the event's timestamp. -/
def processEventG (rules : List CompiledRule) (ev : Event) (smap : StateMap) :
    List GMatch × StateMap :=
  let p := processRulesG ev smap rules
  (p.1, cleanupExpiredStates rules ev.timestamp p.2)

/-- Model of `SequenceEngine.process_events` (ghost-instrumented): events in order,
concatenating results. -/
def processEventsG (rules : List CompiledRule) : List Event → StateMap →
    List GMatch × StateMap
  | [], smap => ([], smap)
  | ev :: evs, smap =>
    let p := processEventG rules ev smap
    let q := processEventsG rules evs p.2
    (p.1 ++ q.1, q.2)

/-- Model of `SequenceEngine.process_event`: the source's observable behaviour (the
ghost components erased). -/
def process_event (rules : List CompiledRule) (ev : Event) (smap : StateMap) :
    List Match × StateMap :=
  let p := processEventG rules ev smap
  (p.1.map Prod.fst, p.2)

/-- Model of `SequenceEngine.process_events`: the source's observable behaviour. -/
def process_events (rules : List CompiledRule) (evs : List Event) (smap : StateMap) :
    List Match × StateMap :=
  let p := processEventsG rules evs smap
  (p.1.map Prod.fst, p.2)

/-- The spec's comparison engine for the GC-soundness claim: identical
event processing but the expired-state sweep never runs (no correlation
state is ever deleted). -/
def processEventsNoGCG (rules : List CompiledRule) : List Event → StateMap →
    List GMatch × StateMap
  | [], smap => ([], smap)
  | ev :: evs, smap =>
    let p := processRulesG ev smap rules
    let q := processEventsNoGCG rules evs p.2
    (p.1 ++ q.1, q.2)

/-- Observable matches of the never-deleting engine. -/
def process_events_noGC (rules : List CompiledRule) (evs : List Event) (smap : StateMap) :
    List Match × StateMap :=
  let p := processEventsNoGCG rules evs smap
  (p.1.map Prod.fst, p.2)

/-- Engine instance: loaded rules plus the correlation-state map. -/
structure Engine where
  rules : List CompiledRule
  stateMap : StateMap

/-- The rule-list edit of `SequenceEngine.remove_rule`: delete the first
rule whose id matches, reporting whether one was found. -/
def removeRuleList (rule_id : String) : List CompiledRule → Bool × List CompiledRule
  | [] => (false, [])
  | r :: rest =>
    if r.rule_id = rule_id then (true, rest)
    else
      let p := removeRuleList rule_id rest
      (p.1, r :: p.2)

/-- Model of `SequenceEngine.remove_rule`: edits only the rule list; the state map
is not touched. -/
def remove_rule (e : Engine) (rule_id : String) : Bool × Engine :=
  let p := removeRuleList rule_id e.rules
  (p.1, { rules := p.2, stateMap := e.stateMap })

/-! ### Match formatter (`models.py: format_output`) -/

/-- Civil date (year, month, day) of a day count from 1970-01-01
(proleptic Gregorian; the standard era-based conversion). -/
def civilFromDays (z0 : Int) : Int × Nat × Nat :=
  let z := z0 + 719468
  let era := Int.fdiv z 146097
  let doe : Nat := (z - era * 146097).toNat
  let yoe : Nat := (doe - doe / 1460 + doe / 36524 - doe / 146096) / 365
  let doy : Nat := doe - (365 * yoe + yoe / 4 - yoe / 100)
  let mp : Nat := (5 * doy + 2) / 153
  let d : Nat := doy - (153 * mp + 2) / 5 + 1
  let m : Nat := if mp < 10 then mp + 3 else mp - 9
  let y : Int := (yoe : Int) + era * 400
  (if m ≤ 2 then y + 1 else y, m, d)

/-- Two-digit zero-padded decimal. -/
def pad2 (n : Nat) : String :=
  if n < 10 then "0" ++ toString n else toString n

/-- Four-digit zero-padded year. -/
def pad4 (y : Int) : String :=
  let s := toString y
  if y < 0 then s
  else if y < 10 then "000" ++ s
  else if y < 100 then "00" ++ s
  else if y < 1000 then "0" ++ s
  else s

/-- Model of `timestamp.strftime("%Y-%m-%d %H:%M:%S")` over the modelled UTC
seconds value. -/
def formatTimestamp (t : Int) : String :=
  let days := Int.fdiv t 86400
  let secs : Nat := (t - days * 86400).toNat
  let c := civilFromDays days
  pad4 c.1 ++ "-" ++ pad2 c.2.1 ++ "-" ++ pad2 c.2.2 ++ " " ++
    pad2 (secs / 3600) ++ ":" ++ pad2 (secs % 3600 / 60) ++ ":" ++ pad2 (secs % 60)

/-- First binding for a placeholder name. -/
def lookupBinding (k : String) : List (String × String) → Option String
  | [] => none
  | (k2, v) :: rest => if k2 = k then some v else lookupBinding k rest

mutual

/-- Model of Python `str.format` with keyword arguments: literal text is
copied, `\x7b\x7b`/`\x7d\x7d` escape to single braces, `\x7bname\x7d`
substitutes the named binding, an unknown name raises `KeyError`, and a
lone closing brace or an unterminated field raises `ValueError` (format
specifications such as `\x7bname:10\x7d` are not modelled). -/
def pyFormatGo (bindings : List (String × String)) : List Char → Except String (List Char)
  | [] => .ok []
  | c :: rest =>
    if c = lbrace then
      match rest with
      | [] => .error "ValueError: Single brace encountered"
      | c2 :: rest2 =>
        if c2 = lbrace then (pyFormatGo bindings rest2).map (fun t => lbrace :: t)
        else pyFormatName bindings [] (c2 :: rest2)
    else if c = rbrace then
      match rest with
      | [] => .error "ValueError: Single brace encountered"
      | c2 :: rest2 =>
        if c2 = rbrace then (pyFormatGo bindings rest2).map (fun t => rbrace :: t)
        else .error "ValueError: Single brace encountered"
    else (pyFormatGo bindings rest).map (fun t => c :: t)

/-- Scan a replacement-field name up to the closing brace, then substitute
its binding. -/
def pyFormatName (bindings : List (String × String)) (acc : List Char) :
    List Char → Except String (List Char)
  | [] => .error "ValueError: Single brace encountered"
  | c :: rest =>
    if c = rbrace then
      match lookupBinding (String.mk acc.reverse) bindings with
      | some v => (pyFormatGo bindings rest).map (fun t => v.toList ++ t)
      | none => .error ("KeyError: " ++ String.mk acc.reverse)
    else pyFormatName bindings (c :: acc) rest

end

/-- The default output template `"[{timestamp}] [{name}] [{events}]"`. -/
def defaultTemplate : String :=
  "[\x7btimestamp\x7d] [\x7bname\x7d] [\x7bevents\x7d]"

/-- Model of `format_output(match, format_str)`: empty (falsy) template replaced by
the default, `{timestamp}` rendered via `strftime`, `{events}` the
comma-join of the matched event ids, then Python `str.format` with the five
documented keyword bindings. -/
def format_output (m : Match) (format_str : String) : Except String String :=
  let fs := if format_str = "" then defaultTemplate else format_str
  let bindings :=
    [("timestamp", formatTimestamp m.timestamp),
     ("name", m.rule_name),
     ("events", joinSep "," m.matched_event_ids),
     ("correlation_key", m.correlation_key),
     ("rule_id", m.rule_id)]
  (pyFormatGo bindings fs.toList).map String.mk

/-- Parse a where expression and evaluate the compiled predicate on an
event record (`none` when the expression does not parse). -/
def evalWhere (expression : String) (event : Value) : Option Bool :=
  (parse expression).toOption.map (fun p => evalPred p event)

/-- State wellformedness maintained by the engine: `first_ts` is the head
of the `timestamps` list (so the first matched event's timestamp). -/
def StateWF (s : CorrelationState) : Prop :=
  s.first_ts = s.timestamps.head?

/-- Every state stored in the map is wellformed. -/
def MapWF (smap : StateMap) : Prop :=
  ∀ kv ∈ smap, StateWF kv.2

/-- Default ghost match used to select concrete emitted matches. -/
def defaultGMatch : GMatch :=
  (⟨"", "", [], "", 0⟩, [], 0)

/-! ### Concrete rules and event streams used to settle the claims -/

/-- Step dictionary with both fields present. -/
def mkStep (a w : String) : StepDict :=
  ⟨some a, some w⟩

/-- Fallback compiled rule (never used: all compilations below succeed). -/
def emptyCompiledRule : CompiledRule :=
  ⟨"", "", [], 0, .dict [], []⟩

/-- Compile a rule dictionary that is known to compile. -/
def forceCompile (r : RuleDict) : CompiledRule :=
  (compile_rule r).toOption.getD emptyCompiledRule

/-- Two-step rule `t == "a"` then `t == "b"`, empty `by`, window 100. -/
def c1rule1 : RuleDict :=
  { idF := some "r1", nameF := some "R1", byF := some [], withinSecondsF := some 100,
    sequenceF := some [mkStep "A" "t == \"a\"", mkStep "B" "t == \"b\""] }

/-- One-step rule `t == "a"`, empty `by`, window 100: shares the
`"default"` correlation key with `c1rule1`. -/
def c1rule2 : RuleDict :=
  { idF := some "r2", nameF := some "R2", byF := some [], withinSecondsF := some 100,
    sequenceF := some [mkStep "A" "t == \"a\""] }

/-- Event `{t: "a"}` at time 0. -/
def c1e1 : Event :=
  ⟨.dict [("t", .str "a")], 0, "e1"⟩

/-- Event `{t: "b"}` at time 1. -/
def c1e2 : Event :=
  ⟨.dict [("t", .str "b")], 1, "e2"⟩

/-- One-step rule with a negative `within_seconds` (the compiler does not
validate the field, so the rule loads). -/
def c2rule : RuleDict :=
  { idF := some "neg", nameF := some "Neg", byF := some [], withinSecondsF := some (-5),
    sequenceF := some [mkStep "A" "t == \"a\""] }

/-- Two-step rule correlated `by x` with window 10. -/
def c4rule : RuleDict :=
  { idF := some "r", nameF := some "R", byF := some ["x"], withinSecondsF := some 10,
    sequenceF := some [mkStep "A" "t == \"a\"", mkStep "B" "t == \"b\""] }

/-- Event `{x: "1", t: tv}` at time `t`. -/
def c4ev (t : Int) (tv eid : String) : Event :=
  ⟨.dict [("x", .str "1"), ("t", .str tv)], t, eid⟩

/-- Stream on which the expired-state sweep changes the emitted matches:
step A at 0, an unrelated event at 50 (triggering the sweep of the stale
state), then a fresh A–B pair at 60/65. -/
def c4events : List Event :=
  [c4ev 0 "a" "e1", c4ev 50 "z" "e2", c4ev 60 "a" "e3", c4ev 65 "b" "e4"]

/-- A correlation state with progress (`i = 1`, `first_ts = last_ts = 0`). -/
def c5state : CorrelationState :=
  ⟨"k", 1, ["e"], [0], some 0, some 0⟩

/-- Single-rule engine after one matched event: the state map holds the
in-progress entry for key `"a"`. -/
def c6engine : Engine :=
  { rules := [forceCompile c4rule],
    stateMap := (process_events [forceCompile c4rule] [c4ev 0 "a" "e1"] []).2 }

/-- A rule dictionary providing nothing but a one-step sequence: no `id`,
`name`, `by` or `within_seconds`. -/
def c7rule : RuleDict :=
  { sequenceF := some [mkStep "s1" "x == \"1\""] }

/-- A concrete match for the formatter claims. -/
def c8match : Match :=
  { rule_id := "r1", rule_name := "N", matched_event_ids := ["a", "b"],
    correlation_key := "k", timestamp := 0 }

/-- Rule correlated by field `u`, used for the null-by-field claim. -/
def c10rule : RuleDict :=
  { idF := some "r10", nameF := some "R10", byF := some ["u"], withinSecondsF := some 60,
    sequenceF := some [mkStep "A" "t == \"a\""] }

/-- Event whose `u` field is present but explicitly null. -/
def c10event : Event :=
  ⟨.dict [("u", .null), ("t", .str "a")], 0, "e"⟩

/-- The ghost match emitted by the two-step rule on its basic A–B stream. -/
def c2gmatch : GMatch :=
  (processEventsG [forceCompile c1rule1] [c1e1, c1e2] []).1.headD defaultGMatch

/-! ### Helper lemmas on the state-map association list -/

/-- Looking up a key other than the one just assigned is unchanged. -/
theorem alookup_aset_ne {smap : StateMap} {k k' : String} {v : CorrelationState}
    (h : k' ≠ k) : alookup (aset smap k v) k' = alookup smap k' := by
  have hkk : ¬(k = k') := fun he => h he.symm
  induction smap with
  | nil => simp [aset, alookup, hkk]
  | cons kv rest ih =>
    obtain ⟨k2, s⟩ := kv
    by_cases h2 : k2 = k
    · subst h2
      simp [aset, alookup, hkk]
    · simp [aset, alookup, h2, ih]

/-- Membership after assignment: an old binding or the new one. -/
theorem mem_aset {smap : StateMap} {k : String} {v : CorrelationState}
    {kv : String × CorrelationState}
    (h : kv ∈ aset smap k v) : kv ∈ smap ∨ kv = (k, v) := by
  induction smap with
  | nil => simp [aset] at h; exact Or.inr h
  | cons kv2 rest ih =>
    obtain ⟨k2, s⟩ := kv2
    by_cases h2 : k2 = k
    · simp only [aset, if_pos h2] at h
      rcases List.mem_cons.mp h with he | ht
      · exact Or.inr (by rw [he, h2])
      · exact Or.inl (List.mem_cons_of_mem _ ht)
    · simp only [aset, if_neg h2] at h
      rcases List.mem_cons.mp h with he | ht
      · exact Or.inl (he ▸ List.mem_cons_self _ _)
      · rcases ih ht with hm | he
        · exact Or.inl (List.mem_cons_of_mem _ hm)
        · exact Or.inr he

/-- A successful lookup yields a binding of the map. -/
theorem alookup_mem {smap : StateMap} {k : String} {s : CorrelationState}
    (h : alookup smap k = some s) : (k, s) ∈ smap := by
  induction smap with
  | nil => simp [alookup] at h
  | cons kv rest ih =>
    obtain ⟨k2, s2⟩ := kv
    by_cases h2 : k2 = k
    · simp only [alookup, if_pos h2, Option.some.injEq] at h
      subst h2; subst h
      exact List.mem_cons_self _ _
    · simp only [alookup, if_neg h2] at h
      exact List.mem_cons_of_mem _ (ih h)

/-- A key absent from the map looks up to `none`. -/
theorem alookup_eq_none {smap : StateMap} {k : String}
    (h : k ∉ smap.map Prod.fst) : alookup smap k = none := by
  induction smap with
  | nil => rfl
  | cons kv rest ih =>
    obtain ⟨k2, s2⟩ := kv
    simp only [List.map_cons, List.mem_cons] at h
    push_neg at h
    have h2 : ¬(k2 = k) := fun he => h.1 he.symm
    simp [alookup, h2, ih h.2]

/-! ### Claim C5: `is_expired` -/

/-- C5 (counterexample): `is_expired` does not implement
"`i > 0` and `now − first_ts > window`". For the state with one step
matched at time 0, window 5 and current time 1000, the claim's predicate is
true but the source returns false (it compares `last_ts − first_ts`,
never consulting the current time — which is not even a parameter). -/
theorem c5_counterexample :
    ¬(c5state.is_expired 5 = true ↔
(0 < c5state.current_step_idx ∧ (1000 : Int) - 0 > 5)) := by
  decide

/-- C5 (amended): `is_expired(window)` takes no current time; it returns
true iff both `first_ts` and `last_ts` are set and `last_ts − first_ts` is
negative or exceeds the window. -/
theorem c5_is_expired_characterization (s : CorrelationState) (w : Int) :
    s.is_expired w = true ↔
      ∃ f l, s.first_ts = some f ∧ s.last_ts = some l ∧ (l - f < 0 ∨ l - f > w) := by
  cases hf : s.first_ts with
  | none => simp [CorrelationState.is_expired, hf]
  | some f =>
    cases hl : s.last_ts with
    | none => simp [CorrelationState.is_expired, hf, hl]
    | some l => simp [CorrelationState.is_expired, hf, hl]

/-! ### Claim C3: absent vs null in predicates -/

/-- C3 (counterexample): on the record `\x7b\x7d`, where the path `a` is
entirely absent, the compiled predicate for `a == null` returns true (and
`a != null` returns false): the absent sentinel is Python `None`, the same
value the `null` literal parses to, so an absent field does satisfy
`== null`, contradicting the claim. -/
theorem c3_counterexample :
    evalWhere "a == null" (.dict []) = some true ∧
      evalWhere "a != null" (.dict []) = some false := by
  decide

/-- C3 (amended): the absent sentinel and the `null` literal are the same
value, so for a record where the path extracts to `None` (absent or
explicitly null alike), `== null` is true and `!= null` is false; for any
non-null literal, `==` is false and `!=` is true on such a record. -/
theorem c3_null_semantics (ev : Value) (path : String) (lit : Value)
    (habs : extract ev path = Value.null) (hlit : lit ≠ Value.null) :
    evalPred (.eqP path Value.null) ev = true ∧
      evalPred (.neP path Value.null) ev = false ∧
      evalPred (.eqP path lit) ev = false ∧
      evalPred (.neP path lit) ev = true := by
  refine ⟨?_, ?_, ?_, ?_⟩ <;> simp only [evalPred, habs] <;> cases lit <;>
    simp_all [pyEq]

/-- C3 (witness): instantiated at the empty record, path `a` and the
string literal `"x"`. -/
theorem c3_null_semantics_witness :
    evalPred (.eqP "a" Value.null) (.dict []) = true ∧
      evalPred (.neP "a" Value.null) (.dict []) = false ∧
      evalPred (.eqP "a" (.str "x")) (.dict []) = false ∧
      evalPred (.neP "a" (.str "x")) (.dict []) = true :=
  c3_null_semantics (.dict []) "a" (.str "x") rfl (by simp)

/-! ### Claim C9: trapped predicate evaluation -/

/-- C9: a compiled step's `matches` is total — it equals the pure predicate
semantics — and the `try/except` wrapper maps any error outcome of a
where-callable to `false` and passes boolean outcomes through. -/
theorem c9_matches_total (st : CompiledStep) (v : Value)
    (f : Value → Except String Bool) :
    st.matches v = evalPred st.pred v ∧
      (∀ s, f v = Except.error s → tryEval f v = false) ∧
      (∀ b, f v = Except.ok b → tryEval f v = b) := by
  refine ⟨rfl, ?_, ?_⟩ <;> intro x h <;> simp [tryEval, h]

/-- C9 (witness): an erroring callable evaluates to `false` under the trap,
and a concrete compiled step's `matches` agrees with its predicate. -/
theorem c9_matches_total_witness :
    CompiledStep.matches ⟨"A", "w", .eqP "a" (.str "x"), 0⟩ (Value.dict []) =
        evalPred (.eqP "a" (.str "x")) (Value.dict []) ∧
      tryEval (fun _ => Except.error "boom") (Value.dict []) = false :=
  ⟨(c9_matches_total ⟨"A", "w", .eqP "a" (.str "x"), 0⟩ (Value.dict [])
      (fun _ => Except.error "boom")).1,
    (c9_matches_total ⟨"A", "w", .eqP "a" (.str "x"), 0⟩ (Value.dict [])
      (fun _ => Except.error "boom")).2.1 "boom" rfl⟩

/-! ### Claim C10: null-valued `by` fields -/

/-- A `by` list containing a field that extracts to `None` yields no key
parts. -/
theorem collectKeyParts_eq_none (ev : Event) {p : String} :
    ∀ {l : List String}, p ∈ l → ev.get p = Value.null →
      collectKeyParts ev l = none := by
  intro l
  induction l with
  | nil => intro hp; exact absurd hp (List.not_mem_nil p)
  | cons fp rest ih =>
    intro hp hnull
    rcases List.mem_cons.mp hp with he | hm
    · subst he
      simp [collectKeyParts, hnull]
    · cases hv : ev.get fp with
      | null => simp [collectKeyParts, hv]
      | bool b => simp [collectKeyParts, hv, ih hm hnull]
      | int n => simp [collectKeyParts, hv, ih hm hnull]
      | float q => simp [collectKeyParts, hv, ih hm hnull]
      | str s => simp [collectKeyParts, hv, ih hm hnull]
      | list xs => simp [collectKeyParts, hv, ih hm hnull]
      | dict kvs => simp [collectKeyParts, hv, ih hm hnull]

/-- C10: when some `by` field of a rule extracts to explicit `None` on an
event (as a present-but-null field does), key extraction yields no key and
`_process_event_for_rule` ignores the event entirely: no matches, and the
state map is returned unchanged (no state created or modified). -/
theorem c10_null_by_ignored (rule : CompiledRule) (ev : Event) (smap : StateMap)
    (p : String) (hp : p ∈ rule.by_fields) (hnull : ev.get p = Value.null) :
    extractCorrelationKey ev rule.get_by_fields = none ∧
      processEventForRuleG rule ev smap = ([], smap) := by
  have hne : rule.by_fields.isEmpty = false := by
    cases hl : rule.by_fields with
    | nil => rw [hl] at hp; exact absurd hp (List.not_mem_nil p)
    | cons a l => rfl
  have hkey : extractCorrelationKey ev rule.get_by_fields = none := by
    simp [extractCorrelationKey, CompiledRule.get_by_fields, hne,
      collectKeyParts_eq_none ev hp hnull]
  exact ⟨hkey, by simp [processEventForRuleG, hkey]⟩

/-- C10 (witness): rule correlated by `u`, event with `u` explicitly null:
no key, no matches, state map untouched. -/
theorem c10_null_by_ignored_witness :
    extractCorrelationKey c10event (forceCompile c10rule).get_by_fields = none ∧
      processEventForRuleG (forceCompile c10rule) c10event [] = ([], []) :=
  c10_null_by_ignored (forceCompile c10rule) c10event [] "u" (by decide) rfl

/-! ### Claim C6: `remove_rule` -/

/-- The rule-list edit of `remove_rule` is: found-flag = any rule has the id,
new list = first such rule erased. -/
theorem removeRuleList_eq (rule_id : String) :
    ∀ l : List CompiledRule,
      removeRuleList rule_id l =
        (l.any (fun r => r.rule_id == rule_id), l.eraseP (fun r => r.rule_id == rule_id)) := by
  intro l
  induction l with
  | nil => rfl
  | cons r rest ih =>
    by_cases h : r.rule_id = rule_id
    · simp [removeRuleList, h, List.eraseP_cons, List.any_cons]
    · simp [removeRuleList, h, List.eraseP_cons, List.any_cons, ih]

/-- C6 (counterexample): a single-rule engine whose state map holds the
in-progress entry that this rule's processing created; `remove_rule`
returns true and removes the rule, but the state map — including that
rule's entry — is left entirely unchanged, contradicting the claim that
state entries of the removed rule are dropped. -/
theorem c6_counterexample :
    c6engine.stateMap ≠ [] ∧
      (remove_rule c6engine "r").1 = true ∧
      (remove_rule c6engine "r").2.rules.length = 0 ∧
      (remove_rule c6engine "r").2.stateMap = c6engine.stateMap := by
  refine ⟨by decide, by decide, by decide, rfl⟩

/-- C6 (amended): `remove_rule(rule_id)` returns true iff a rule with that
id is loaded, removes the first such rule from the rule list, and leaves
the correlation-state map entirely unchanged (no state entries are
dropped). -/
theorem c6_remove_rule (e : Engine) (rule_id : String) :
    (remove_rule e rule_id).2.stateMap = e.stateMap ∧
      (remove_rule e rule_id).1 = e.rules.any (fun r => r.rule_id == rule_id) ∧
      (remove_rule e rule_id).2.rules = e.rules.eraseP (fun r => r.rule_id == rule_id) := by
  refine ⟨rfl, ?_, ?_⟩ <;> simp [remove_rule, removeRuleList_eq]

/-! ### Claim C7: which rules compile -/

/-- A single step compiles iff it has an `as` entry and a parseable
`where` entry. -/
theorem compileStep_ok_iff (st : StepDict) :
    exceptOk (compileStep st) = true ↔
      st.asField ≠ none ∧ ∃ w, st.whereField = some w ∧ exceptOk (parse w) = true := by
  obtain ⟨a?, w?⟩ := st
  cases a? with
  | none => simp [compileStep, exceptOk]
  | some a =>
    cases w? with
    | none => simp [compileStep, exceptOk]
    | some w =>
      cases hp : parse w with
      | error e => simp [compileStep, hp, exceptOk]
      | ok p => simp [compileStep, hp, exceptOk]

/-- The step list compiles iff every step does. -/
theorem compileSteps_ok_iff (seq : List StepDict) :
    exceptOk (compileSteps seq) = true ↔
      ∀ st ∈ seq, st.asField ≠ none ∧
        ∃ w, st.whereField = some w ∧ exceptOk (parse w) = true := by
  induction seq with
  | nil => simp [compileSteps, exceptOk]
  | cons st rest ih =>
    cases hc : compileStep st with
    | error e =>
      have hst := compileStep_ok_iff st
      rw [hc] at hst
      simp only [exceptOk, Bool.false_eq_true, false_iff] at hst
      simp only [compileSteps, hc, exceptOk, Bool.false_eq_true, false_iff]
      intro hall
      exact hst (hall st (List.mem_cons_self _ _))
    | ok c =>
      have hst := compileStep_ok_iff st
      rw [hc] at hst
      simp only [exceptOk, true_iff] at hst
      cases hr : compileSteps rest with
      | error e =>
        rw [hr] at ih
        simp only [exceptOk, Bool.false_eq_true, false_iff] at ih
        simp only [compileSteps, hc, hr, exceptOk, Bool.false_eq_true, false_iff]
        intro hall
        exact ih (fun s hs => hall s (List.mem_cons_of_mem _ hs))
      | ok cs =>
        rw [hr] at ih
        simp only [exceptOk, true_iff] at ih
        simp only [compileSteps, hc, hr, exceptOk, true_iff]
        intro s hs
        rcases List.mem_cons.mp hs with he | hm
        · exact he ▸ hst
        · exact ih s hm

/-- C7 (counterexample): a rule dictionary with no `id`, `name`, `by` or
`within_seconds` — each of which the claim says is required — compiles
successfully (defaults are substituted; only the sequence is validated). -/
theorem c7_counterexample :
    c7rule.idF = none ∧ c7rule.nameF = none ∧ c7rule.byF = none ∧
      c7rule.withinSecondsF = none ∧ exceptOk (compile_rule c7rule) = true := by
  refine ⟨rfl, rfl, rfl, rfl, by decide⟩

/-- C7 (amended): `compile_rule` fails exactly when the rule lacks a
non-empty `sequence` list, or some step lacks an `as` entry or a `where`
entry, or some step's `where` fails to parse; `id`, `name`, `by` and
`within_seconds` are defaulted without validation, and neither alias
non-emptiness nor alias uniqueness is checked. -/
theorem c7_compile_ok_iff (rd : RuleDict) :
    exceptOk (compile_rule rd) = true ↔
      ∃ seq, rd.sequenceF = some seq ∧ seq ≠ [] ∧
        ∀ st ∈ seq, st.asField ≠ none ∧
          ∃ w, st.whereField = some w ∧ exceptOk (parse w) = true := by
  cases hs : rd.sequenceF with
  | none => simp [compile_rule, hs, exceptOk]
  | some seq =>
    cases hq : seq with
    | nil => simp [compile_rule, hs, hq, exceptOk, List.isEmpty_nil]
    | cons st rest =>
      rw [← hq]
      have hne : seq.isEmpty = false := by rw [hq]; rfl
      cases hc : compileSteps seq with
      | error e =>
        have := compileSteps_ok_iff seq
        rw [hc] at this
        simp only [exceptOk, Bool.false_eq_true, false_iff] at this
        simp only [compile_rule, hs, hne, Bool.false_eq_true, if_false, hc, exceptOk,
          Bool.false_eq_true, false_iff]
        rintro ⟨seq2, hseq2, _, hall⟩
        rw [Option.some.injEq] at hseq2
        exact this (hseq2 ▸ hall)
      | ok steps =>
        have := compileSteps_ok_iff seq
        rw [hc] at this
        simp only [exceptOk, true_iff] at this
        simp only [compile_rule, hs, hne, Bool.false_eq_true, if_false, hc, exceptOk,
          true_iff]
        exact ⟨seq, rfl, by rw [hq]; exact List.cons_ne_nil st rest, this⟩

/-! ### Claim C8: match formatting -/

/-- Round trip of a string through its character list. -/
theorem mk_toList_append_nil (s : String) : String.mk (s.toList ++ []) = s := by
  rw [List.append_nil]
  cases s
  rfl

/-- C8 (counterexample): rendering the template `"\x7bfoo\x7d"` fails with
a `KeyError` — the unknown placeholder is not left literal in the output;
`format_output` is built on `str.format`, which raises for unknown keyword
fields. -/
theorem c8_counterexample :
    format_output c8match "\x7bfoo\x7d" = Except.error "KeyError: foo" ∧
      exceptOk (format_output c8match "\x7bfoo\x7d") = false := by
  exact ⟨rfl, rfl⟩

/-- C8 (amended): rendering substitutes `\x7btimestamp\x7d` (as
`YYYY-MM-DD HH:MM:SS` over the modelled UTC seconds), `\x7bname\x7d`,
`\x7bevents\x7d` (comma-joined event ids in sequence order),
`\x7bcorrelation_key\x7d` and `\x7brule_id\x7d`, and an empty/missing
template renders with the default `"[\x7btimestamp\x7d] [\x7bname\x7d]
[\x7bevents\x7d]"`; but a template containing an unknown placeholder makes
rendering fail with a `KeyError` rather than leaving it literal. -/
theorem c8_format_output (m : Match) :
    format_output m "" = format_output m defaultTemplate ∧
      format_output m "\x7bname\x7d" = Except.ok m.rule_name ∧
      format_output m "\x7brule_id\x7d" = Except.ok m.rule_id ∧
      format_output m "\x7bcorrelation_key\x7d" = Except.ok m.correlation_key ∧
      format_output m "\x7bevents\x7d" = Except.ok (joinSep "," m.matched_event_ids) ∧
      format_output m "\x7btimestamp\x7d" = Except.ok (formatTimestamp m.timestamp) ∧
      format_output m "\x7bnope\x7d" = Except.error "KeyError: nope" := by
  refine ⟨rfl, ?_, ?_, ?_, ?_, ?_, rfl⟩
  · calc format_output m "\x7bname\x7d"
        = Except.ok (String.mk (m.rule_name.toList ++ [])) := rfl
      _ = Except.ok m.rule_name := by rw [mk_toList_append_nil]
  · calc format_output m "\x7brule_id\x7d"
        = Except.ok (String.mk (m.rule_id.toList ++ [])) := rfl
      _ = Except.ok m.rule_id := by rw [mk_toList_append_nil]
  · calc format_output m "\x7bcorrelation_key\x7d"
        = Except.ok (String.mk (m.correlation_key.toList ++ [])) := rfl
      _ = Except.ok m.correlation_key := by rw [mk_toList_append_nil]
  · calc format_output m "\x7bevents\x7d"
        = Except.ok (String.mk ((joinSep "," m.matched_event_ids).toList ++ [])) := rfl
      _ = Except.ok (joinSep "," m.matched_event_ids) := by rw [mk_toList_append_nil]
  · calc format_output m "\x7btimestamp\x7d"
        = Except.ok (String.mk ((formatTimestamp m.timestamp).toList ++ [])) := rfl
      _ = Except.ok (formatTimestamp m.timestamp) := by rw [mk_toList_append_nil]

/-! ### Claim C4: the expired-state sweep -/

/-- Keys absent from a map stay absent in a filtered map. -/
theorem alookup_filter_eq_none {smap : StateMap} {k : String}
    (p : String × CorrelationState → Bool)
    (h : k ∉ smap.map Prod.fst) : alookup (smap.filter p) k = none := by
  apply alookup_eq_none
  intro hmem
  apply h
  rcases List.mem_map.mp hmem with ⟨kv, hkv, hfst⟩
  exact List.mem_map.mpr ⟨kv, List.mem_of_mem_filter hkv, hfst⟩

/-- C4 (counterexample): on a concrete single-rule engine and stream, the
engine with its after-event sweep emits a different match sequence than the
engine that never deletes correlation states: the sweep deletes a stale
in-progress state, freeing the key for a fresh sequence that completes,
while the never-deleting engine keeps the stale state, whose current step
blocks that completion. -/
theorem c4_counterexample :
    (process_events [forceCompile c4rule] c4events []).1 ≠
      (process_events_noGC [forceCompile c4rule] c4events []).1 := by
  decide

/-- C4 (amended): the sweep removes exactly the entries whose `last_ts` is
older, relative to the current event's timestamp, than the minimum
`within_seconds` over all loaded rules with a non-empty `by` list — there
is no per-rule ownership of states — and (per the counterexample) such
removal can change the set of future matches. -/
theorem c4_sweep_characterization (rules : List CompiledRule) (now : Int)
    (smap : StateMap) (k : String) (hnd : (smap.map Prod.fst).Nodup) :
    alookup (cleanupExpiredStates rules now smap) k =
      match alookup smap k with
      | none => none
      | some s => if expiredEntry (minTimeout rules) now s then none else some s := by
  induction smap with
  | nil => rfl
  | cons kv rest ih =>
    obtain ⟨k2, s2⟩ := kv
    rw [List.map_cons, List.nodup_cons] at hnd
    by_cases h2 : k2 = k
    · subst h2
      cases hexp : expiredEntry (minTimeout rules) now s2 with
      | true =>
        have hl : alookup
            (List.filter (fun kv => !expiredEntry (minTimeout rules) now kv.2) rest) k2 =
            none := alookup_filter_eq_none _ hnd.1
        simp [cleanupExpiredStates, List.filter_cons, hexp, alookup, hl]
      | false =>
        simp [cleanupExpiredStates, List.filter_cons, hexp, alookup, hexp]
    · cases hexp : expiredEntry (minTimeout rules) now s2 with
      | true =>
        simpa [cleanupExpiredStates, List.filter_cons, hexp, alookup, h2]
          using ih hnd.2
      | false =>
        simpa [cleanupExpiredStates, List.filter_cons, hexp, alookup, h2]
          using ih hnd.2

/-- C4 (witness): the characterization applied to the swept map of the
counterexample run after its second event. -/
theorem c4_sweep_characterization_witness :
    alookup
        (cleanupExpiredStates [forceCompile c4rule] 50
          (process_events [forceCompile c4rule] [c4ev 0 "a" "e1"] []).2) "1" =
      match alookup (process_events [forceCompile c4rule] [c4ev 0 "a" "e1"] []).2 "1" with
      | none => none
      | some s =>
        if expiredEntry (minTimeout [forceCompile c4rule]) 50 s then none else some s :=
  c4_sweep_characterization [forceCompile c4rule] 50
    (process_events [forceCompile c4rule] [c4ev 0 "a" "e1"] []).2 "1" (by decide)

/-! ### Claim C1: rule isolation and state keying -/

/-- Advancing/emitting writes only the entry at the event's key. -/
theorem advanceAndEmit_alookup {rule : CompiledRule} {ev : Event} {key : String}
    {s : CorrelationState} {smap : StateMap} {k : String} (h : k ≠ key) :
    alookup (advanceAndEmit rule ev key s smap).2 k = alookup smap k := by
  simp only [advanceAndEmit]
  split <;> simp [alookup_aset_ne h]

/-- C1 (counterexample): two rules with empty `by` lists share the single
`"default"` state-map entry — states are keyed by correlation key alone,
not by `(rule_id, correlation_key)` — so loading the one-step rule `r2`
destroys the two-step rule `r1`'s progress: `r1` emits a match when loaded
alone but none when both rules are loaded, on the same event stream. -/
theorem c1_counterexample :
    ((process_events [forceCompile c1rule1, forceCompile c1rule2] [c1e1, c1e2] []).1.filter
        (fun m => m.rule_id == "r1")) ≠
      ((process_events [forceCompile c1rule1] [c1e1, c1e2] []).1.filter
        (fun m => m.rule_id == "r1")) := by
  decide

/-- C1 (amended): sequence progress is tracked in states keyed by the
correlation key alone, shared across rules: processing an event for a rule
reads and writes only the state-map entry at the event's derived
correlation key (every other key's state is untouched), and consequently
two rules that derive the same correlation key share — and can reset or
advance — one another's state, so a rule's matches can differ from the
run in which it is the only loaded rule. -/
theorem c1_state_keying (rule : CompiledRule) (ev : Event) (smap : StateMap)
    (k : String) (h : extractCorrelationKey ev rule.get_by_fields ≠ some k) :
    alookup (processEventForRuleG rule ev smap).2 k = alookup smap k := by
  cases hkey : extractCorrelationKey ev rule.get_by_fields with
  | none => simp [processEventForRuleG, hkey]
  | some key =>
    have hk : k ≠ key := fun he => h (he ▸ hkey)
    simp only [processEventForRuleG, hkey]
    repeat' first
      | rfl
      | rw [advanceAndEmit_alookup hk]
      | rw [alookup_aset_ne hk]
      | split

/-- C1 (witness): processing an event for the two-step rule leaves every
other key's entry (here `"zzz"`, on the empty map) unchanged. -/
theorem c1_state_keying_witness :
    alookup (processEventForRuleG (forceCompile c1rule1) c1e1 []).2 "zzz" =
      alookup [] "zzz" :=
  c1_state_keying (forceCompile c1rule1) c1e1 [] "zzz" (by decide)

/-! ### Claim C2: window discipline -/

/-- A fresh state is wellformed. -/
theorem stateWF_init (k : String) : StateWF (CorrelationState.init k) := rfl

/-- Reset states are wellformed. -/
theorem stateWF_reset (s : CorrelationState) : StateWF s.reset := rfl

/-- Advancing a state preserves wellformedness: the head of the timestamps list
remains the first matched timestamp. -/
theorem stateWF_next_step {s : CorrelationState} (hs : StateWF s)
    (eid : String) (ts : Int) : StateWF (s.next_step eid ts) := by
  unfold StateWF CorrelationState.next_step at *
  cases hts : s.timestamps with
  | nil => rw [hts] at hs; simp at hs; simp [hts, hs]
  | cons x xs => rw [hts] at hs; simp at hs; simp [hts, hs]

/-- Assignment of a wellformed state preserves map wellformedness. -/
theorem mapWF_aset {smap : StateMap} {k : String} {v : CorrelationState}
    (hm : MapWF smap) (hv : StateWF v) : MapWF (aset smap k v) := by
  intro kv hkv
  rcases mem_aset hkv with h | h
  · exact hm kv h
  · rw [h]; exact hv

/-- Filtering preserves map wellformedness. -/
theorem mapWF_filter {smap : StateMap} (hm : MapWF smap)
    (p : String × CorrelationState → Bool) : MapWF (smap.filter p) :=
  fun kv hkv => hm kv (List.mem_of_mem_filter hkv)

/-- The empty map is wellformed. -/
theorem mapWF_nil : MapWF [] :=
  fun kv h => absurd h (List.not_mem_nil kv)

/-- Window bound at emission: when the state fed to `advanceAndEmit` is
wellformed and respects the window check, the emitted ghost match's
completion timestamp is within the rule's window of the first matched
timestamp, and the map stays wellformed. -/
theorem advanceAndEmit_spec {rule : CompiledRule} {ev : Event} {key : String}
    {s : CorrelationState} {smap : StateMap}
    (hm : MapWF smap) (hs : StateWF s) (hw : 0 ≤ rule.within_seconds)
    (hcond : ∀ ft, s.first_ts = some ft → ev.timestamp - ft ≤ rule.within_seconds) :
    MapWF (advanceAndEmit rule ev key s smap).2 ∧
      ∀ g ∈ (advanceAndEmit rule ev key s smap).1,
        g.1.timestamp - g.2.1.headD g.1.timestamp ≤ g.2.2 ∧
        g.2.2 = rule.within_seconds ∧ g.1.rule_id = rule.rule_id := by
  simp only [advanceAndEmit]
  split
  · refine ⟨mapWF_aset hm (stateWF_reset _), ?_⟩
    intro g hg
    rw [List.mem_singleton] at hg
    subst hg
    refine ⟨?_, rfl, rfl⟩
    simp only [CorrelationState.next_step]
    cases hts : s.timestamps with
    | nil => simp; omega
    | cons x xs =>
      rw [StateWF, hts] at hs
      simp only [List.head?_cons] at hs
      simp only [List.cons_append, List.headD_cons]
      exact hcond x hs
  · exact ⟨mapWF_aset hm (stateWF_next_step hs ev.event_id ev.timestamp), by simp⟩

/-- Per-rule window discipline: processing one event for one rule with a
non-negative window over a wellformed map emits only ghost matches within
the rule's window, and keeps the map wellformed. -/
theorem processEventForRuleG_spec (rule : CompiledRule) (ev : Event) (smap : StateMap)
    (hm : MapWF smap) (hw : 0 ≤ rule.within_seconds) :
    MapWF (processEventForRuleG rule ev smap).2 ∧
      ∀ g ∈ (processEventForRuleG rule ev smap).1,
        g.1.timestamp - g.2.1.headD g.1.timestamp ≤ g.2.2 ∧
        g.2.2 = rule.within_seconds ∧ g.1.rule_id = rule.rule_id := by
  cases hkey : extractCorrelationKey ev rule.get_by_fields with
  | none => exact ⟨by simp [processEventForRuleG, hkey, hm], by simp [processEventForRuleG, hkey]⟩
  | some key =>
    simp only [processEventForRuleG, hkey]
    set smap1 := if (alookup smap key).isNone then aset smap key (.init key) else smap
      with hsmap1
    have hm1 : MapWF smap1 := by
      rw [hsmap1]; split
      · exact mapWF_aset hm (stateWF_init key)
      · exact hm
    set st0 := (alookup smap1 key).getD (.init key) with hst0
    have hwf0 : StateWF st0 := by
      rw [hst0]
      cases hl : alookup smap1 key with
      | none => exact stateWF_init key
      | some s => exact hm1 _ (alookup_mem hl)
    set st1 := if st0.is_complete rule.get_step_count then st0.reset else st0 with hst1
    have hwf1 : StateWF st1 := by
      rw [hst1]; split
      · exact stateWF_reset st0
      · exact hwf0
    set p := if rule.get_step_count ≤ st1.current_step_idx then (st1.reset, 0)
      else (st1, st1.current_step_idx) with hp
    have hwf2 : StateWF p.1 := by
      rw [hp]; split
      · exact stateWF_reset st1
      · exact hwf1
    cases hstep : rule.steps[p.2]? with
    | none =>
      dsimp only
      exact ⟨mapWF_aset hm1 hwf2, by simp⟩
    | some step =>
      dsimp only
      by_cases hmatch : step.matches ev.fields = true
      · rw [if_pos hmatch]
        cases hft : p.1.first_ts with
        | none =>
          dsimp only
          exact advanceAndEmit_spec hm1 hwf2 hw
            (fun ft habs => absurd habs (by simp [hft]))
        | some ft =>
          dsimp only
          by_cases hgt : ev.timestamp - ft > rule.within_seconds
          · rw [if_pos hgt]
            cases hstep0 : rule.steps[0]? with
            | none =>
              dsimp only
              exact ⟨mapWF_aset hm1 (stateWF_reset _), by simp⟩
            | some step0 =>
              dsimp only
              by_cases hm0 : step0.matches ev.fields = true
              · rw [if_pos hm0]
                exact advanceAndEmit_spec hm1 (stateWF_reset _) hw
                  (fun ft' habs => absurd habs (by simp [CorrelationState.reset]))
              · rw [if_neg hm0]
                exact ⟨mapWF_aset hm1 (stateWF_reset _), by simp⟩
          · rw [if_neg hgt]
            refine advanceAndEmit_spec hm1 hwf2 hw ?_
            intro ft' hft'
            rw [hft] at hft'
            rw [Option.some.injEq] at hft'
            subst hft'
            omega
      · rw [if_neg hmatch]
        exact ⟨mapWF_aset hm1 hwf2, by simp⟩

/-- The rule loop preserves wellformedness and attributes every emitted
ghost match to a loaded rule, within that rule's window. -/
theorem processRulesG_spec (ev : Event) :
    ∀ (rules : List CompiledRule) (smap : StateMap), MapWF smap →
      (∀ r ∈ rules, 0 ≤ r.within_seconds) →
      MapWF (processRulesG ev smap rules).2 ∧
        ∀ g ∈ (processRulesG ev smap rules).1, ∃ r ∈ rules,
          g.1.timestamp - g.2.1.headD g.1.timestamp ≤ g.2.2 ∧
          g.2.2 = r.within_seconds ∧ g.1.rule_id = r.rule_id := by
  intro rules
  induction rules with
  | nil => intro smap hm _; exact ⟨hm, by simp [processRulesG]⟩
  | cons r rs ih =>
    intro smap hm hw
    have hr := processEventForRuleG_spec r ev smap hm (hw r (List.mem_cons_self r rs))
    have hq := ih (processEventForRuleG r ev smap).2 hr.1
      (fun r' h' => hw r' (List.mem_cons_of_mem _ h'))
    simp only [processRulesG]
    refine ⟨hq.1, ?_⟩
    intro g hg
    rw [List.mem_append] at hg
    rcases hg with h1 | h2
    · exact ⟨r, List.mem_cons_self r rs, hr.2 g h1⟩
    · rcases hq.2 g h2 with ⟨r', hr', hP⟩
      exact ⟨r', List.mem_cons_of_mem _ hr', hP⟩

/-- Processing one event (rules then sweep) preserves wellformedness and emits
only in-window ghost matches. -/
theorem processEventG_spec (rules : List CompiledRule) (ev : Event) (smap : StateMap)
    (hm : MapWF smap) (hw : ∀ r ∈ rules, 0 ≤ r.within_seconds) :
    MapWF (processEventG rules ev smap).2 ∧
      ∀ g ∈ (processEventG rules ev smap).1, ∃ r ∈ rules,
        g.1.timestamp - g.2.1.headD g.1.timestamp ≤ g.2.2 ∧
        g.2.2 = r.within_seconds ∧ g.1.rule_id = r.rule_id := by
  have h := processRulesG_spec ev rules smap hm hw
  exact ⟨mapWF_filter h.1 _, h.2⟩

/-- Stream-level window discipline over any wellformed starting map. -/
theorem processEventsG_spec (rules : List CompiledRule)
    (hw : ∀ r ∈ rules, 0 ≤ r.within_seconds) :
    ∀ (events : List Event) (smap : StateMap), MapWF smap →
      MapWF (processEventsG rules events smap).2 ∧
        ∀ g ∈ (processEventsG rules events smap).1, ∃ r ∈ rules,
          g.1.timestamp - g.2.1.headD g.1.timestamp ≤ g.2.2 ∧
          g.2.2 = r.within_seconds ∧ g.1.rule_id = r.rule_id := by
  intro events
  induction events with
  | nil => intro smap hm; exact ⟨hm, by simp [processEventsG]⟩
  | cons ev evs ih =>
    intro smap hm
    have h1 := processEventG_spec rules ev smap hm hw
    have h2 := ih (processEventG rules ev smap).2 h1.1
    simp only [processEventsG]
    refine ⟨h2.1, ?_⟩
    intro g hg
    rw [List.mem_append] at hg
    rcases hg with h | h
    exacts [h1.2 g h, h2.2 g h]

/-- C2 (counterexample): `within_seconds` is never validated, so a rule
with a negative window loads; its single step matches the first event and
a match is emitted whose completion timestamp minus its first matched
timestamp (0) exceeds the rule's `within_seconds` (−5) — the claim fails
for such a loaded rule. -/
theorem c2_counterexample :
    ((processEventsG [forceCompile c2rule] [c1e1] []).1.any
        (fun g => decide (g.2.2 < g.1.timestamp - g.2.1.headD g.1.timestamp))) = true := by
  decide

/-- C2 (amended): for every set of loaded rules whose `within_seconds` are
non-negative (the compiler does not enforce this) and every event stream
processed in order from a fresh engine, every emitted match — tracked with
its ghost snapshot of the completing state's matched timestamps — satisfies
completion timestamp minus first matched timestamp ≤ the emitting rule's
`within_seconds`; the observable matches are exactly the ghost matches with
the snapshots erased. -/
theorem c2_window_discipline (rules : List CompiledRule) (events : List Event)
    (hw : ∀ r ∈ rules, 0 ≤ r.within_seconds) :
    (process_events rules events []).1 = (processEventsG rules events []).1.map Prod.fst ∧
      ∀ g ∈ (processEventsG rules events []).1, ∃ r ∈ rules,
        g.1.timestamp - g.2.1.headD g.1.timestamp ≤ g.2.2 ∧
        g.2.2 = r.within_seconds ∧ g.1.rule_id = r.rule_id :=
  ⟨rfl, (processEventsG_spec rules hw events [] mapWF_nil).2⟩

/-- C2 (witness): on the basic A–B stream for the two-step rule, the
emitted match's completion timestamp is within the window of its first
matched timestamp. -/
theorem c2_window_discipline_witness :
    c2gmatch.1.timestamp - c2gmatch.2.1.headD c2gmatch.1.timestamp ≤ c2gmatch.2.2 := by
  rcases (c2_window_discipline [forceCompile c1rule1] [c1e1, c1e2] (by decide)).2
      c2gmatch (by decide) with ⟨r, _, hb, _⟩
  exact hb

end SeqRuleEngine
